import Mathlib

/-!
Verification of the couchdb wrapper (`couchdb-nano-wrapper.js`).

The wrapper is embedded shallowly: the JavaScript values the code inspects
become the inductive type `JVal`; property access becomes `jsGet`
(returning `Except Unit`, since access on `undefined`/`null` throws);
every transport request the code can issue becomes a constructor of
`Request`; and each operation becomes a function from its inputs and the
transport's responses to the list of requests it issues together with its
outcome.  Asynchrony follows the single-threaded callback model of the
host: a transport call made during a synchronous stretch of code only
registers a callback, and all callbacks run strictly after that stretch
has finished.
-/

namespace Couch

/-- JavaScript values, as far as the wrapper inspects them.  Numbers are
modelled as integers (the code never does arithmetic on document fields
beyond truthiness tests). -/
inductive JVal where
  | undef
  | vnull
  | vbool (b : Bool)
  | vnum (n : Int)
  | vstr (s : String)
  | vobj (fields : List (String × JVal))
  | varr (elems : List JVal)
  deriving Repr, Inhabited

/-- JavaScript truthiness: `undefined`, `null`, `false`, `0` and the empty
string are falsy; every object and array is truthy. -/
def truthy : JVal → Bool
  | JVal.undef => false
  | JVal.vnull => false
  | JVal.vbool b => b
  | JVal.vnum n => n != 0
  | JVal.vstr s => s != ""
  | JVal.vobj _ => true
  | JVal.varr _ => true

/-- First binding of a key in an object's field list (objects are built
without duplicate keys here); a missing key reads as `undefined`. -/
def lookupField : List (String × JVal) → String → JVal
  | [], _ => JVal.undef
  | (k, v) :: rest, key => if k = key then v else lookupField rest key

/-- Property access `recv[key]`.  On `undefined` or `null` it throws a
TypeError (`Except.error ()`); on an object it reads the field; on the
remaining primitives and on arrays the string keys used by this code read
as `undefined`. -/
def jsGet : JVal → String → Except Unit JVal
  | JVal.undef, _ => Except.error ()
  | JVal.vnull, _ => Except.error ()
  | JVal.vobj fields, key => Except.ok (lookupField fields key)
  | _, _ => Except.ok JVal.undef

/-- Strict equality `===` restricted to the comparisons the code performs
(the server listing is a list of strings).  Two objects or arrays are
distinct references here, hence unequal. -/
def jsStrictEq : JVal → JVal → Bool
  | JVal.vstr a, JVal.vstr b => a == b
  | JVal.vnum a, JVal.vnum b => a == b
  | JVal.vbool a, JVal.vbool b => a == b
  | JVal.vnull, JVal.vnull => true
  | JVal.undef, JVal.undef => true
  | _, _ => false

/-- `list.indexOf(v) !== -1` on an array receiver. -/
def jsListHas : List JVal → JVal → Bool
  | [], _ => false
  | x :: xs, v => jsStrictEq x v || jsListHas xs v

/-- Name resolution (`getDbName`): the configured name prefix, when
truthy, is prepended to the logical database name. -/
def getDbName (pfx : String) (dbName : String) : String :=
  if pfx = "" then dbName else pfx ++ dbName

/-- Effective field name for `extractIds`: the source runs
`fieldName = fieldName || 'id'`, so an omitted or falsy (empty) field
name defaults to `"id"`. -/
def effField : Option String → String
  | some s => if s = "" then "id" else s
  | none => "id"

/-- The loop body of `extractIds`: for each element push
`data[i][fieldName] || data[i].value[fieldName]`; a thrown TypeError
aborts the whole call. -/
def extractIdsGo (f : String) : List JVal → Except Unit (List JVal)
  | [] => Except.ok []
  | d :: rest =>
      match jsGet d f with
      | Except.error e => Except.error e
      | Except.ok v =>
        match (if truthy v then Except.ok v else
                match jsGet d "value" with
                | Except.error e => Except.error e
                | Except.ok w => jsGet w f) with
        | Except.error e => Except.error e
        | Except.ok x =>
          match extractIdsGo f rest with
          | Except.error e => Except.error e
          | Except.ok out => Except.ok (x :: out)

/-- `extractIds(data, fieldName)`: pure helper, no transport involved. -/
def extractIds (data : List JVal) (fieldName : Option String) : Except Unit (List JVal) :=
  extractIdsGo (effField fieldName) data

theorem extractIdsGo_ok (f : String) (data : List JVal) :
    ∀ out : List JVal, extractIdsGo f data = Except.ok out →
    out.length = data.length ∧
    ∀ (i : Nat) a, data[i]? = some a →
      ∃ v, jsGet a f = Except.ok v ∧
        (truthy v = true → out[i]? = some v) ∧
        (truthy v = false → ∃ w u, jsGet a "value" = Except.ok w ∧
          jsGet w f = Except.ok u ∧ out[i]? = some u) := by
  induction data with
  | nil =>
      intro out h
      simp [extractIdsGo] at h
      subst h
      simp
  | cons d rest ih =>
      intro out h
      simp only [extractIdsGo] at h
      cases hv : jsGet d f with
      | error e => rw [hv] at h; exact absurd h (by simp)
      | ok v =>
        rw [hv] at h
        dsimp only at h
        by_cases ht : truthy v = true
        · rw [if_pos ht] at h
          cases hrest : extractIdsGo f rest with
          | error e => rw [hrest] at h; exact absurd h (by simp)
          | ok tail =>
            rw [hrest] at h
            dsimp only at h
            simp only [Except.ok.injEq] at h
            subst h
            obtain ⟨hlen, helem⟩ := ih tail hrest
            refine ⟨by simp [hlen], ?_⟩
            intro i a ha
            cases i with
            | zero =>
                simp at ha
                subst ha
                exact ⟨v, hv, by intro _; simp, by intro hf; rw [ht] at hf; cases hf⟩
            | succ j =>
                simp at ha
                obtain ⟨v2, hv2, h1, h2⟩ := helem j a ha
                exact ⟨v2, hv2, by intro htv; simpa using h1 htv, by
                  intro htv
                  obtain ⟨w, u, hw, hu, ho⟩ := h2 htv
                  exact ⟨w, u, hw, hu, by simpa using ho⟩⟩
        · rw [if_neg ht] at h
          rw [Bool.not_eq_true] at ht
          cases hw : jsGet d "value" with
          | error e => rw [hw] at h; exact absurd h (by simp)
          | ok w =>
            rw [hw] at h
            dsimp only at h
            cases hu : jsGet w f with
            | error e => rw [hu] at h; exact absurd h (by simp)
            | ok u =>
              rw [hu] at h
              dsimp only at h
              cases hrest : extractIdsGo f rest with
              | error e => rw [hrest] at h; exact absurd h (by simp)
              | ok tail =>
                rw [hrest] at h
                dsimp only at h
                simp only [Except.ok.injEq] at h
                subst h
                obtain ⟨hlen, helem⟩ := ih tail hrest
                refine ⟨by simp [hlen], ?_⟩
                intro i a ha
                cases i with
                | zero =>
                    simp at ha
                    subst ha
                    refine ⟨v, hv, ?_, ?_⟩
                    · intro htv
                      simp [ht] at htv
                    · intro _
                      exact ⟨w, u, hw, hu, by simp⟩
                | succ j =>
                    simp at ha
                    obtain ⟨v2, hv2, h1, h2⟩ := helem j a ha
                    exact ⟨v2, hv2, by intro htv; simpa using h1 htv, by
                      intro htv
                      obtain ⟨w2, u2, hw2, hu2, ho⟩ := h2 htv
                      exact ⟨w2, u2, hw2, hu2, by simpa using ho⟩⟩

/-- C10: `extractIds(data, fieldName)` returns an array of the same
length as `data` whose i-th element is `data[i][fieldName]` when that
value is truthy and otherwise `data[i].value[fieldName]`, with the field
name defaulting to `"id"` when omitted or falsy; it is a pure function
(no transport parameter appears in its definition) and does not modify
its input. -/
theorem extractIds_spec (data : List JVal) (fieldName : Option String) (out : List JVal)
    (h : extractIds data fieldName = Except.ok out) :
    out.length = data.length ∧
    (∀ (i : Nat) a, data[i]? = some a →
      ∃ v, jsGet a (effField fieldName) = Except.ok v ∧
        (truthy v = true → out[i]? = some v) ∧
        (truthy v = false → ∃ w u, jsGet a "value" = Except.ok w ∧
          jsGet w (effField fieldName) = Except.ok u ∧ out[i]? = some u)) ∧
    effField none = "id" ∧ effField (some "") = "id" := by
  obtain ⟨h1, h2⟩ := extractIdsGo_ok (effField fieldName) data out h
  exact ⟨h1, h2, rfl, rfl⟩

/-- C10 witness: on `[{id:"x"}]` with the field name omitted the helper
returns a one-element array. -/
theorem extractIds_spec_witness :
    ([JVal.vstr "x"] : List JVal).length = ([JVal.vobj [("id", JVal.vstr "x")]] : List JVal).length :=
  (extractIds_spec [JVal.vobj [("id", JVal.vstr "x")]] none [JVal.vstr "x"] rfl).1

/-- Transport requests the wrapper can issue (the primitives the claims
exercise). -/
inductive Request where
  | listDbs
  | getDoc (db : String) (id : String) (revsInfo : Bool)
  | insertDoc (db : String) (doc : JVal) (docName : Option String)
  | destroyDoc (db : String) (id : String) (rev : JVal)
  deriving Repr

/-- Outcome of one wrapper operation's promise: resolved, rejected, or a
callback threw, so the promise never settles. -/
inductive OpOutcome where
  | resolved (v : JVal)
  | rejected (e : JVal)
  | crashed
  deriving Repr

/-- `insert` normalizes a non-array argument to a one-element batch. -/
def normalizeItems : JVal → List JVal
  | JVal.varr xs => xs
  | v => [v]

/-- `Array.isArray`. -/
def isArr : JVal → Bool
  | JVal.varr _ => true
  | _ => false

/-- The explicit identifier argument of each insert request: when
`keyName` is truthy the source splices `keyName` itself into the argument
list (`if (keyName) args.splice(1, 0, keyName)`), so the identifier is
the key-field name string. -/
def keyId : Option String → Option String
  | some s => if s = "" then none else some s
  | none => none

/-- The insert requests issued by
`insert(items).withKey(keyName).into(dbName)`: one per normalized item,
each against the resolved database name, each carrying the spliced
identifier argument. -/
def insertRequests (pfx : String) (keyName : Option String) (items : JVal) (dbName : String) :
    List Request :=
  (normalizeItems items).map
    (fun item => Request.insertDoc (getDbName pfx dbName) item (keyId keyName))

/-- Reason of the first rejection `q.all` observes: `order` lists the
input indices of the per-item promises in completion order; `settled`
holds each item's transport response by input index. -/
def firstErr (settled : List (Except JVal JVal)) : List Nat → Option JVal
  | [] => none
  | i :: rest =>
      match settled.getD i (Except.ok JVal.undef) with
      | Except.error e => some e
      | Except.ok _ => firstErr settled rest

/-- `q.all`: rejects with the first-observed rejection, otherwise resolves
with the values in promise (input) order. -/
def qAll (order : List Nat) (settled : List (Except JVal JVal)) : Except JVal (List JVal) :=
  match firstErr settled order with
  | some e => Except.error e
  | none => Except.ok (settled.filterMap (fun r =>
      match r with
      | Except.ok b => some b
      | Except.error _ => none))

/-- `insert(items).withKey(keyName).into(dbName)` run against a transport
that answers the i-th insert with `responses[i]`, the answers arriving in
completion order `order`: the requests issued and the aggregate result. -/
def insertInto (pfx : String) (keyName : Option String) (items : JVal) (dbName : String)
    (responses : List (Except JVal JVal)) (order : List Nat) :
    List Request × Except JVal (List JVal) :=
  (insertRequests pfx keyName items dbName, qAll order responses)

theorem getD_map_ok (bodies : List JVal) (i : Nat) :
    (List.map (Except.ok : JVal → Except JVal JVal) bodies).getD i (Except.ok JVal.undef) =
      Except.ok (bodies.getD i JVal.undef) := by
  simp only [List.getD_eq_getElem?_getD, List.getElem?_map]
  cases h : bodies[i]? with
  | none => simp [h]
  | some b => simp [h]

theorem firstErr_map_ok (order : List Nat) (bodies : List JVal) :
    firstErr (List.map Except.ok bodies) order = none := by
  induction order with
  | nil => rfl
  | cons i rest ih =>
      simp only [firstErr]
      rw [getD_map_ok]
      exact ih

theorem getD_error_mem (settled : List (Except JVal JVal)) (i : Nat) (e : JVal)
    (h : settled.getD i (Except.ok JVal.undef) = Except.error e) :
    Except.error e ∈ settled := by
  rw [List.getD_eq_getElem?_getD] at h
  cases hx : settled[i]? with
  | none => rw [hx] at h; simp at h
  | some r =>
      rw [hx] at h
      simp at h
      subst h
      exact List.get?_mem ((List.get?_eq_getElem? settled i).trans hx)

theorem firstErr_some_mem (order : List Nat) (settled : List (Except JVal JVal)) (e : JVal)
    (h : firstErr settled order = some e) : Except.error e ∈ settled := by
  induction order with
  | nil => simp [firstErr] at h
  | cons i rest ih =>
      simp only [firstErr] at h
      cases hx : settled.getD i (Except.ok JVal.undef) with
      | error e2 =>
          rw [hx] at h
          simp at h
          subst h
          exact getD_error_mem settled i e2 hx
      | ok b =>
          rw [hx] at h
          exact ih h

theorem firstErr_of_mem (order : List Nat) (settled : List (Except JVal JVal)) (i : Nat) (e : JVal)
    (hmem : i ∈ order) (hi : settled.getD i (Except.ok JVal.undef) = Except.error e) :
    ∃ e2, firstErr settled order = some e2 := by
  induction order with
  | nil => cases hmem
  | cons j rest ih =>
      simp only [firstErr]
      cases hx : settled.getD j (Except.ok JVal.undef) with
      | error e2 => exact ⟨e2, rfl⟩
      | ok b =>
          rcases List.mem_cons.mp hmem with hji | hrest
          · subst hji; rw [hi] at hx; cases hx
          · exact ih hrest

theorem filterMap_ok_map (bodies : List JVal) :
    (List.map Except.ok bodies).filterMap (fun r : Except JVal JVal =>
        match r with
        | Except.ok b => some b
        | Except.error _ => none) = bodies := by
  induction bodies with
  | nil => rfl
  | cons b rest ih => simp [List.filterMap_cons, ih]

/-- C5: batch insert of `k` documents: when every transport insert
succeeds the aggregate resolves with the `k` bodies in input order
(whatever the completion order); when any insert fails the aggregate is a
rejection whose reason is one of the failing inserts' errors (the first
observed), yielding no sequence of bodies. -/
theorem insert_batch_aggregate (pfx : String) (keyName : Option String) (items : JVal)
    (dbName : String) (responses : List (Except JVal JVal)) (order : List Nat)
    (hlen : responses.length = (normalizeItems items).length)
    (hord : ∀ i, i < responses.length → i ∈ order) :
    (∀ bodies : List JVal, responses = List.map Except.ok bodies →
        (insertInto pfx keyName items dbName responses order).snd = Except.ok bodies ∧
        bodies.length = (normalizeItems items).length) ∧
    ((∃ (i : Nat) (e : JVal), responses[i]? = some (Except.error e)) →
        ∃ e, Except.error e ∈ responses ∧
          (insertInto pfx keyName items dbName responses order).snd = Except.error e) := by
  constructor
  · intro bodies hb
    subst hb
    refine ⟨?_, by simpa using hlen⟩
    show qAll order (List.map Except.ok bodies) = Except.ok bodies
    unfold qAll
    rw [firstErr_map_ok]
    dsimp only
    rw [filterMap_ok_map]
  · rintro ⟨i, e, hi⟩
    have hlt : i < responses.length := by
      by_contra hc
      push_neg at hc
      rw [List.getElem?_eq_none hc] at hi
      cases hi
    have hgetD : responses.getD i (Except.ok JVal.undef) = Except.error e := by
      simp [List.getD_eq_getElem?_getD, hi]
    obtain ⟨e2, he2⟩ := firstErr_of_mem order responses i e (hord i hlt) hgetD
    refine ⟨e2, firstErr_some_mem order responses e2 he2, ?_⟩
    show qAll order responses = Except.error e2
    unfold qAll
    rw [he2]


/-- C5 witness: two successful inserts completing out of order still
resolve with the two bodies in input order. -/
theorem insert_batch_aggregate_witness :
    (insertInto "" none (JVal.varr [JVal.vobj [("a", JVal.vnum 1)], JVal.vobj [("b", JVal.vnum 2)]])
        "people" [Except.ok (JVal.vstr "b1"), Except.ok (JVal.vstr "b2")] [1, 0]).snd =
      Except.ok [JVal.vstr "b1", JVal.vstr "b2"] :=
  ((insert_batch_aggregate "" none
      (JVal.varr [JVal.vobj [("a", JVal.vnum 1)], JVal.vobj [("b", JVal.vnum 2)]]) "people"
      [Except.ok (JVal.vstr "b1"), Except.ok (JVal.vstr "b2")] [1, 0] rfl (by decide)).1
    [JVal.vstr "b1", JVal.vstr "b2"] rfl).1

/-- C8: a single non-array document input is normalized to a one-element
batch: the same requests are issued and the same aggregate result is
produced as for the explicit one-element array. -/
theorem insert_single_is_singleton_batch (pfx : String) (keyName : Option String) (d : JVal)
    (dbName : String) (responses : List (Except JVal JVal)) (order : List Nat)
    (h : isArr d = false) :
    insertInto pfx keyName d dbName responses order =
      insertInto pfx keyName (JVal.varr [d]) dbName responses order := by
  have hnorm : normalizeItems d = [d] := by
    cases d <;> simp [normalizeItems, isArr] at h ⊢
  have hnorm2 : normalizeItems (JVal.varr [d]) = [d] := rfl
  simp only [insertInto, insertRequests, hnorm, hnorm2]

/-- C8 witness: a single object insert equals the singleton batch insert. -/
theorem insert_single_is_singleton_batch_witness :
    insertInto "" none (JVal.vobj [("name", JVal.vstr "jeff")]) "people"
        [Except.ok JVal.undef] [0] =
      insertInto "" none (JVal.varr [JVal.vobj [("name", JVal.vstr "jeff")]]) "people"
        [Except.ok JVal.undef] [0] :=
  insert_single_is_singleton_batch "" none (JVal.vobj [("name", JVal.vstr "jeff")]) "people"
    [Except.ok JVal.undef] [0] rfl

/-- C1 (refuted by the code): with `withKey("name")`, the insert requests
for `{name:"jeff"}` and `{name:"annie"}` both carry the literal string
`"name"` as their explicit identifier — the key-field NAME, not each
item's field VALUE — so two items with different field values get the
same identifier, and that identifier is not the field value. -/
theorem insert_withKey_passes_field_name :
    insertRequests "" (some "name")
        (JVal.varr [JVal.vobj [("name", JVal.vstr "jeff")],
                    JVal.vobj [("name", JVal.vstr "annie")]])
        "people" =
      [Request.insertDoc "people" (JVal.vobj [("name", JVal.vstr "jeff")]) (some "name"),
       Request.insertDoc "people" (JVal.vobj [("name", JVal.vstr "annie")]) (some "name")] ∧
    lookupField [("name", JVal.vstr "jeff")] "name" ≠
      lookupField [("name", JVal.vstr "annie")] "name" ∧
    (some "name" : Option String) ≠ some "jeff" := by
  refine ⟨rfl, ?_, by decide⟩
  intro hcon
  rw [show lookupField [("name", JVal.vstr "jeff")] "name" = JVal.vstr "jeff" from rfl,
      show lookupField [("name", JVal.vstr "annie")] "name" = JVal.vstr "annie" from rfl] at hcon
  injection hcon with hs
  exact absurd hs (by decide)

/-- Outcome of one name's membership promise inside `checkDbExists`:
`runChecks` resolves it with `dbList.indexOf(dbName) !== -1`, or the
callback throws a TypeError when `dbList` has no `indexOf` method — in
particular when it is `undefined` after an ignored transport error.  (The
transport contract delivers the listing body as an array of names, so
array receivers are the only non-throwing case exercised here.) -/
inductive NameOutcome where
  | resolvedB (b : Bool)
  | crashed
  deriving Repr

/-- `runChecks(defer, dbName)` evaluated at the current value of the
`dbList` closure variable. -/
def runChecksVal (dbList : JVal) (name : String) : NameOutcome :=
  match dbList with
  | JVal.varr l => NameOutcome.resolvedB (jsListHas l (JVal.vstr name))
  | _ => NameOutcome.crashed

/-- One entry of the per-name bookkeeping created by the synchronous
`forEach` loop of `checkDbExists`: the name's promise was either resolved
on the spot (the `if (dbList)` cache branch) or its callback was
registered against the `reqIdx`-th issued list request. -/
inductive SyncSlot where
  | done (out : NameOutcome)
  | awaiting (reqIdx : Nat) (name : String)
  deriving Repr

/-- State of the synchronous `forEach` loop: the `dbList` closure
variable, the number of list requests issued so far, and the per-name
slots in input (promise) order. -/
structure SyncState where
  dbList : JVal
  reqCount : Nat
  slots : List SyncSlot
  deriving Repr

/-- One iteration of the `forEach` loop.  `nano.db.list` is asynchronous:
issuing the request during the loop only registers the callback, so the
loop body itself never assigns `dbList`. -/
def checkSyncStep (st : SyncState) (name : String) : SyncState :=
  if truthy st.dbList then
    { st with slots := st.slots ++ [SyncSlot.done (runChecksVal st.dbList name)] }
  else
    { st with reqCount := st.reqCount + 1,
              slots := st.slots ++ [SyncSlot.awaiting st.reqCount name] }

/-- The whole synchronous phase of `checkDbExists(dbNames)`: the loop
starts with `dbList` undefined and no requests issued. -/
def checkSyncPhase (names : List String) : SyncState :=
  names.foldl checkSyncStep { dbList := JVal.undef, reqCount := 0, slots := [] }

/-- The value the list callback assigns to `dbList`: the response body,
or `undefined` on a transport error — the callback ignores its error
argument (`dbList = _dbList;` with no error check). -/
def callbackList : Except JVal JVal → JVal
  | Except.ok v => v
  | Except.error _ => JVal.undef

/-- The callback phase: the registered callbacks run after the loop, in
request order; each assigns its own response to `dbList` and immediately
resolves its name via `runChecks`, so it reads exactly the listing it
just assigned.  A thrown TypeError escapes to the event loop and stops
the remaining callbacks. -/
def runCallbacks (responses : List (Except JVal JVal)) : List SyncSlot → List NameOutcome
  | [] => []
  | SyncSlot.done out :: rest => out :: runCallbacks responses rest
  | SyncSlot.awaiting i name :: rest =>
      match runChecksVal (callbackList (responses.getD i (Except.error JVal.undef))) name with
      | NameOutcome.resolvedB b => NameOutcome.resolvedB b :: runCallbacks responses rest
      | NameOutcome.crashed => [NameOutcome.crashed]

/-- Settled state of the `q.all` aggregate over the per-name promises: it
resolves once every promise has resolved; a promise whose callback threw
never settles, leaving the aggregate pending forever.  No path inside
`checkDbExists` rejects a per-name promise, so `settledErr` expresses the
outcome the spec expects of a failing listing fetch, never one the code
produces. -/
inductive AggResult where
  | settledOk (bs : List Bool)
  | settledErr (e : JVal)
  | unsettled
  deriving Repr

/-- The boolean a settled per-name promise carries. -/
def boolOf : NameOutcome → Option Bool
  | NameOutcome.resolvedB b => some b
  | NameOutcome.crashed => none

/-- `q.all` over the `n` per-name promises. -/
def aggAll (n : Nat) (outs : List NameOutcome) : AggResult :=
  let bs := outs.filterMap boolOf
  if bs.length = n then AggResult.settledOk bs else AggResult.unsettled

/-- `checkDbExists(names)` against a transport answering the j-th issued
list request with `responses[j]`: the number of list requests issued and
the aggregate result. -/
def checkDbExists (names : List String) (responses : List (Except JVal JVal)) :
    Nat × AggResult :=
  ((checkSyncPhase names).reqCount,
   aggAll names.length (runCallbacks responses (checkSyncPhase names).slots))

/-- The slots the synchronous loop produces when the cache is never
populated: one awaiting slot per name, with consecutive request
indices. -/
def awaitingFrom : Nat → List String → List SyncSlot
  | _, [] => []
  | i, n :: ns => SyncSlot.awaiting i n :: awaitingFrom (i + 1) ns

theorem checkSync_foldl (names : List String) : ∀ st : SyncState, st.dbList = JVal.undef →
    names.foldl checkSyncStep st =
      { dbList := JVal.undef, reqCount := st.reqCount + names.length,
        slots := st.slots ++ awaitingFrom st.reqCount names } := by
  induction names with
  | nil =>
      intro st h
      obtain ⟨d, r, sl⟩ := st
      simp at h
      subst h
      simp [awaitingFrom]
  | cons n ns ih =>
      intro st h
      obtain ⟨d, r, sl⟩ := st
      simp at h
      subst h
      have hstep : checkSyncStep ⟨JVal.undef, r, sl⟩ n =
          ⟨JVal.undef, r + 1, sl ++ [SyncSlot.awaiting r n]⟩ := rfl
      rw [List.foldl_cons, hstep, ih _ rfl]
      simp only [SyncState.mk.injEq, awaitingFrom, List.length_cons]
      refine ⟨trivial, by omega, by simp⟩

/-- C2 (refuted by the code): `checkDbExists` issues one list request per
name, not one per invocation — the `dbList` cache is only assigned inside
the asynchronous callbacks, which all run after the synchronous loop has
finished, so the `if (dbList)` branch is never taken; for the two-name
call the code issues two list requests where the claim requires one. -/
theorem checkDbExists_requests_per_name :
    (∀ names responses, (checkDbExists names responses).fst = names.length) ∧
    (checkDbExists ["a", "b"]
        [Except.ok (JVal.varr [JVal.vstr "a"]),
         Except.ok (JVal.varr [JVal.vstr "a"])]).fst = 2 ∧ (2 : Nat) ≠ 1 := by
  refine ⟨?_, rfl, by decide⟩
  intro names responses
  show (checkSyncPhase names).reqCount = names.length
  rw [checkSyncPhase, checkSync_foldl names _ rfl]
  simp

/-- C3 (refuted by the code): when the list request inside
`checkDbExists` fails, the error is not propagated — the callback ignores
its error argument, assigns `undefined` to the listing and then throws a
TypeError in `runChecks`, so the aggregate never settles (in particular
it does not reject with the transport's error). -/
theorem checkDbExists_swallows_listing_error :
    checkDbExists ["a"] [Except.error (JVal.vstr "boom")] = (1, AggResult.unsettled) := rfl

theorem runCallbacks_awaitingFrom (L : List String) (names : List String) :
    ∀ (k : Nat) (responses : List (Except JVal JVal)),
    (∀ j, k ≤ j → j < k + names.length →
        responses.getD j (Except.error JVal.undef) = Except.ok (JVal.varr (L.map JVal.vstr))) →
    runCallbacks responses (awaitingFrom k names) =
      names.map (fun n => NameOutcome.resolvedB (jsListHas (L.map JVal.vstr) (JVal.vstr n))) := by
  induction names with
  | nil => intro k resp h; rfl
  | cons n ns ih =>
      intro k resp h
      have hk := h k (Nat.le_refl k) (by simp only [List.length_cons]; omega)
      have hrest : ∀ j, k + 1 ≤ j → j < (k + 1) + ns.length →
          resp.getD j (Except.error JVal.undef) = Except.ok (JVal.varr (L.map JVal.vstr)) := by
        intro j hj1 hj2
        refine h j (by omega) ?_
        simp only [List.length_cons]
        omega
      simp only [awaitingFrom, runCallbacks, hk, callbackList, runChecksVal]
      rw [ih (k + 1) resp hrest]
      rfl

theorem jsListHas_map_vstr (L : List String) (n : String) :
    jsListHas (L.map JVal.vstr) (JVal.vstr n) = decide (n ∈ L) := by
  induction L with
  | nil => rfl
  | cons a rest ih =>
      simp only [List.map_cons, jsListHas, jsStrictEq, ih]
      by_cases hna : a = n
      · subst hna; simp
      · have h1 : (a == n) = false := by simp [hna]
        have h2 : ¬(n = a) := fun hc => hna hc.symm
        simp [h1, h2]

theorem filterMap_boolOf_map (f : String → Bool) (names : List String) :
    (names.map (fun n => NameOutcome.resolvedB (f n))).filterMap boolOf = names.map f := by
  induction names with
  | nil => rfl
  | cons n ns ih => simp [List.filterMap_cons, boolOf, ih]

/-- C7: against a transport whose list responses all carry the server's
listing `L`, `checkDbExists(names)` resolves with one boolean per input
name, in input order, true iff that name — exactly as supplied, no
name resolution appearing anywhere in the definition — is in `L`. -/
theorem checkDbExists_membership (names : List String) (L : List String)
    (responses : List (Except JVal JVal))
    (hresp : ∀ (j : Nat), j < names.length →
        responses.getD j (Except.error JVal.undef) = Except.ok (JVal.varr (L.map JVal.vstr))) :
    checkDbExists names responses =
      (names.length, AggResult.settledOk (names.map (fun n => decide (n ∈ L)))) := by
  unfold checkDbExists
  rw [checkSyncPhase, checkSync_foldl names _ rfl]
  dsimp only
  rw [List.nil_append]
  rw [runCallbacks_awaitingFrom L names 0 responses
    (fun j hj1 hj2 => hresp j (by omega))]
  have hmaps : (fun n => NameOutcome.resolvedB (jsListHas (L.map JVal.vstr) (JVal.vstr n))) =
      (fun n => NameOutcome.resolvedB (decide (n ∈ L))) := by
    funext n
    rw [jsListHas_map_vstr]
  rw [hmaps]
  unfold aggAll
  rw [filterMap_boolOf_map (fun n => decide (n ∈ L)) names]
  simp

/-- C7 witness: names `["a","b","c"]` against listing `["a","c"]` yield
`[true, false, true]`. -/
theorem checkDbExists_membership_witness :
    checkDbExists ["a", "b", "c"]
        [Except.ok (JVal.varr [JVal.vstr "a", JVal.vstr "c"]),
         Except.ok (JVal.varr [JVal.vstr "a", JVal.vstr "c"]),
         Except.ok (JVal.varr [JVal.vstr "a", JVal.vstr "c"])] =
      (3, AggResult.settledOk [true, false, true]) := by
  have h := checkDbExists_membership ["a", "b", "c"] ["a", "c"]
      [Except.ok (JVal.varr [JVal.vstr "a", JVal.vstr "c"]),
       Except.ok (JVal.varr [JVal.vstr "a", JVal.vstr "c"]),
       Except.ok (JVal.varr [JVal.vstr "a", JVal.vstr "c"])]
      (by
        intro j hj
        simp only [List.length_cons, List.length_nil] at hj
        interval_cases j <;> rfl)
  exact h.trans (by rfl)

/-- `deleteDoc(docId).from(dbName)`: the database handle is obtained from
the name exactly as supplied (`nano.use(dbName)` — no `getDbName` call in
this operation), then a revision-info get is issued; on get success the
`_rev` field of the fetched body is read (a throw there escapes the
callback) and a destroy for `docId` and that revision is issued. -/
def deleteDocFrom (docId : String) (dbName : String)
    (getResp : Except JVal JVal) (destroyResp : Except JVal JVal) :
    List Request × OpOutcome :=
  match getResp with
  | Except.error e => ([Request.getDoc dbName docId true], OpOutcome.rejected e)
  | Except.ok revInfo =>
      match jsGet revInfo "_rev" with
      | Except.error _ => ([Request.getDoc dbName docId true], OpOutcome.crashed)
      | Except.ok rev =>
          match destroyResp with
          | Except.error e =>
              ([Request.getDoc dbName docId true, Request.destroyDoc dbName docId rev],
               OpOutcome.rejected e)
          | Except.ok body =>
              ([Request.getDoc dbName docId true, Request.destroyDoc dbName docId rev],
               OpOutcome.resolved body)

/-- Database name carried by a request. -/
def reqDb : Request → Option String
  | Request.listDbs => none
  | Request.getDoc db _ _ => some db
  | Request.insertDoc db _ _ => some db
  | Request.destroyDoc db _ _ => some db

/-- C4 counterexample: with a configured name resolution value `"pre"`,
`deleteDoc("d").from("x")` issues its get and destroy requests against
`"x"`, while the claim requires the physical name
`getDbName "pre" "x" = "prex"`. -/
theorem deleteDoc_counterexample :
    getDbName "pre" "x" = "prex" ∧
    (deleteDocFrom "d" "x" (Except.ok (JVal.vobj [("_rev", JVal.vstr "1-a")]))
        (Except.ok (JVal.vobj []))).fst =
      [Request.getDoc "x" "d" true, Request.destroyDoc "x" "d" (JVal.vstr "1-a")] ∧
    ("x" : String) ≠ "prex" := by
  exact ⟨rfl, rfl, by decide⟩

/-- C4 amended: `deleteDoc` applies no name resolution at all — for every
configured value, both its get and its destroy request target the logical
name exactly as supplied (so it joins `checkDbExists` as an exception to
the prefixing rule). -/
theorem deleteDoc_uses_supplied_name (docId dbName : String)
    (getResp destroyResp : Except JVal JVal) :
    ((deleteDocFrom docId dbName getResp destroyResp).fst.map reqDb).all
      (fun o => o == some dbName) = true := by
  cases getResp with
  | error e => simp [deleteDocFrom, reqDb]
  | ok revInfo =>
      cases hr : jsGet revInfo "_rev" with
      | error e => simp [deleteDocFrom, hr, reqDb]
      | ok rev =>
          cases destroyResp with
          | error e => simp [deleteDocFrom, hr, reqDb]
          | ok body => simp [deleteDocFrom, hr, reqDb]

/-- C6: `deleteDoc` is a strict two-step sequence: a get failure rejects
the operation with exactly that error and no destroy request is ever
issued; a get success with revision `rev` issues the destroy with exactly
`docId` and `rev`, and the operation then resolves with the destroy body
on success and rejects with the destroy error on failure. -/
theorem deleteDoc_two_step (docId dbName : String) (getResp destroyResp : Except JVal JVal) :
    (∀ e, getResp = Except.error e →
        deleteDocFrom docId dbName getResp destroyResp =
          ([Request.getDoc dbName docId true], OpOutcome.rejected e)) ∧
    (∀ revInfo rev, getResp = Except.ok revInfo → jsGet revInfo "_rev" = Except.ok rev →
        (deleteDocFrom docId dbName getResp destroyResp).fst =
          [Request.getDoc dbName docId true, Request.destroyDoc dbName docId rev] ∧
        (∀ body, destroyResp = Except.ok body →
            (deleteDocFrom docId dbName getResp destroyResp).snd = OpOutcome.resolved body) ∧
        (∀ e, destroyResp = Except.error e →
            (deleteDocFrom docId dbName getResp destroyResp).snd = OpOutcome.rejected e)) := by
  constructor
  · intro e he
    subst he
    rfl
  · intro revInfo rev hg hr
    subst hg
    cases destroyResp with
    | error e2 =>
        refine ⟨by simp [deleteDocFrom, hr], ?_, ?_⟩
        · intro body hb
          cases hb
        · intro e he
          injection he with he2
          subst he2
          simp [deleteDocFrom, hr]
    | ok body2 =>
        refine ⟨by simp [deleteDocFrom, hr], ?_, ?_⟩
        · intro body hb
          injection hb with hb2
          subst hb2
          simp [deleteDocFrom, hr]
        · intro e he
          cases he

/-- C6 witness: a successful revision fetch followed by a successful
destroy issues both requests with the fetched revision and resolves with
the destroy body. -/
theorem deleteDoc_two_step_witness :
    (deleteDocFrom "d" "x" (Except.ok (JVal.vobj [("_rev", JVal.vstr "2-b")]))
        (Except.ok (JVal.vstr "okbody"))).fst =
      [Request.getDoc "x" "d" true, Request.destroyDoc "x" "d" (JVal.vstr "2-b")] ∧
    (deleteDocFrom "d" "x" (Except.ok (JVal.vobj [("_rev", JVal.vstr "2-b")]))
        (Except.ok (JVal.vstr "okbody"))).snd = OpOutcome.resolved (JVal.vstr "okbody") := by
  have h := (deleteDoc_two_step "d" "x" (Except.ok (JVal.vobj [("_rev", JVal.vstr "2-b")]))
      (Except.ok (JVal.vstr "okbody"))).2 (JVal.vobj [("_rev", JVal.vstr "2-b")])
      (JVal.vstr "2-b") rfl rfl
  exact ⟨h.1, h.2.1 (JVal.vstr "okbody") rfl⟩

/-- Except-valued element-wise mapper, written with explicit recursion so
the payload construction below is easy to characterise. -/
def mapMExc {α β : Type} (f : α → Except Unit β) : List α → Except Unit (List β)
  | [] => Except.ok []
  | a :: rest =>
      match f a with
      | Except.error e => Except.error e
      | Except.ok b =>
          match mapMExc f rest with
          | Except.error e => Except.error e
          | Except.ok bs => Except.ok (b :: bs)

/-- One view entry of the design payload: always a `map` entry
(`viewMaps[viewMap].map`), plus a `reduce` entry exactly when
`viewMaps[viewMap].reduce` is truthy (`if (viewMaps[viewMap].reduce)`). -/
def buildViewEntry (p : String × JVal) : Except Unit (String × JVal) :=
  match jsGet p.snd "map" with
  | Except.error e => Except.error e
  | Except.ok m =>
      match jsGet p.snd "reduce" with
      | Except.error e => Except.error e
      | Except.ok r =>
          Except.ok (p.fst, JVal.vobj
            (("map", m) :: (if truthy r then [("reduce", r)] else [])))

/-- The design payload built by `addDesign`: the fixed language tag and
the views in the enumeration (insertion) order of `viewMaps`. -/
def buildDesign (viewMaps : List (String × JVal)) : Except Unit JVal :=
  match mapMExc buildViewEntry viewMaps with
  | Except.error e => Except.error e
  | Except.ok views =>
      Except.ok (JVal.vobj [("language", JVal.vstr "javascript"), ("views", JVal.vobj views)])

/-- `addDesign(designName, viewMaps).to(dbName)`: builds the payload in
the body of `to` (a throw there escapes before any request), then issues
exactly one insert request with identifier `"_design/" + designName`
against the resolved database name. -/
def addDesignTo (pfx designName : String) (viewMaps : List (String × JVal)) (dbName : String)
    (insertResp : Except JVal JVal) : List Request × OpOutcome :=
  match buildDesign viewMaps with
  | Except.error _ => ([], OpOutcome.crashed)
  | Except.ok design =>
      ([Request.insertDoc (getDbName pfx dbName) design (some ("_design/" ++ designName))],
       match insertResp with
       | Except.ok body => OpOutcome.resolved body
       | Except.error e => OpOutcome.rejected e)

theorem mapMExc_ok {α β : Type} (f : α → Except Unit β) (l : List α) :
    ∀ out, mapMExc f l = Except.ok out →
    out.length = l.length ∧
    ∀ (i : Nat) a, l[i]? = some a → ∃ b, f a = Except.ok b ∧ out[i]? = some b := by
  induction l with
  | nil =>
      intro out h
      simp [mapMExc] at h
      subst h
      simp
  | cons a rest ih =>
      intro out h
      simp only [mapMExc] at h
      cases hf : f a with
      | error e => rw [hf] at h; exact absurd h (by simp)
      | ok b =>
          rw [hf] at h
          dsimp only at h
          cases hrest : mapMExc f rest with
          | error e => rw [hrest] at h; exact absurd h (by simp)
          | ok bs =>
              rw [hrest] at h
              dsimp only at h
              simp only [Except.ok.injEq] at h
              subst h
              obtain ⟨hlen, helem⟩ := ih bs hrest
              refine ⟨by simp [hlen], ?_⟩
              intro i x hx
              cases i with
              | zero =>
                  simp at hx
                  subst hx
                  exact ⟨b, hf, by simp⟩
              | succ j =>
                  simp at hx
                  obtain ⟨b2, hb2, ho⟩ := helem j x hx
                  exact ⟨b2, hb2, by simpa using ho⟩

/-- C9 counterexample: the caller supplies a reduce for view `v` — the
`reduce` key is present, bound to the (falsy) empty string — yet the
built payload's `views.v` contains only the `map` entry, because the code
tests truthiness rather than presence. -/
theorem addDesign_reduce_counterexample :
    buildDesign [("v", JVal.vobj [("map", JVal.vstr "m"), ("reduce", JVal.vstr "")])] =
      Except.ok (JVal.vobj
        [("language", JVal.vstr "javascript"),
         ("views", JVal.vobj [("v", JVal.vobj [("map", JVal.vstr "m")])])]) ∧
    jsGet (JVal.vobj [("map", JVal.vstr "m"), ("reduce", JVal.vstr "")]) "reduce" =
      Except.ok (JVal.vstr "") ∧
    lookupField [("map", JVal.vstr "m")] "reduce" = JVal.undef := by
  exact ⟨rfl, rfl, rfl⟩

/-- C9 amended: `addDesign(designName, viewMaps).to(dbName)` issues
exactly one insert request, whose identifier is
`"_design/" + designName`, whose payload carries the fixed language tag
and one views entry per supplied view in order, each with a `map` entry
and with a `reduce` entry iff the supplied reduce value is truthy. -/
theorem addDesign_payload (pfx designName : String) (viewMaps : List (String × JVal))
    (dbName : String) (insertResp : Except JVal JVal) (design : JVal)
    (h : buildDesign viewMaps = Except.ok design) :
    (addDesignTo pfx designName viewMaps dbName insertResp).fst =
      [Request.insertDoc (getDbName pfx dbName) design (some ("_design/" ++ designName))] ∧
    ∃ views : List (String × JVal),
      design = JVal.vobj [("language", JVal.vstr "javascript"), ("views", JVal.vobj views)] ∧
      views.length = viewMaps.length ∧
      ∀ (i : Nat) name vm, viewMaps[i]? = some (name, vm) →
        ∃ m r, jsGet vm "map" = Except.ok m ∧ jsGet vm "reduce" = Except.ok r ∧
          views[i]? = some (name, JVal.vobj
            (("map", m) :: (if truthy r then [("reduce", r)] else []))) := by
  have hbd0 := h
  unfold buildDesign at hbd0
  cases hm : mapMExc buildViewEntry viewMaps with
  | error e => rw [hm] at hbd0; cases hbd0
  | ok views =>
      rw [hm] at hbd0
      dsimp only at hbd0
      simp only [Except.ok.injEq] at hbd0
      constructor
      · unfold addDesignTo
        rw [h]
      · obtain ⟨hlen, helem⟩ := mapMExc_ok buildViewEntry viewMaps views hm
        refine ⟨views, hbd0.symm, hlen, ?_⟩
        intro i name vm hvm
        obtain ⟨entry, hee, ho⟩ := helem i (name, vm) hvm
        unfold buildViewEntry at hee
        dsimp only at hee
        cases hmp : jsGet vm "map" with
        | error e => rw [hmp] at hee; cases hee
        | ok m =>
            rw [hmp] at hee
            dsimp only at hee
            cases hrd : jsGet vm "reduce" with
            | error e => rw [hrd] at hee; cases hee
            | ok r =>
                rw [hrd] at hee
                dsimp only at hee
                simp only [Except.ok.injEq] at hee
                subst hee
                exact ⟨m, r, rfl, rfl, ho⟩

/-- C9 witness: a view with a map and no reduce produces the one insert
request with the design identifier and a views entry with only `map`. -/
theorem addDesign_payload_witness :
    (addDesignTo "" "d" [("byName", JVal.vobj [("map", JVal.vstr "fn")])] "db"
        (Except.ok JVal.undef)).fst =
      [Request.insertDoc "db"
        (JVal.vobj [("language", JVal.vstr "javascript"),
          ("views", JVal.vobj [("byName", JVal.vobj [("map", JVal.vstr "fn")])])])
        (some ("_design/" ++ "d"))] :=
  (addDesign_payload "" "d" [("byName", JVal.vobj [("map", JVal.vstr "fn")])] "db"
    (Except.ok JVal.undef)
    (JVal.vobj [("language", JVal.vstr "javascript"),
      ("views", JVal.vobj [("byName", JVal.vobj [("map", JVal.vstr "fn")])])]) rfl).1

end Couch
